import Mathlib

/-!
Shallow embedding of ytfs.py (YTFS - Youtube Filesystem).

Python strings are embedded as lists of characters (`PyStr`), Python dicts as
association lists (`alGet`/`alSet`/`alDel` mirror `d[k]`, `d[k] = v`,
`del d[k]`).  The classes `YTActions` (ResultSet) and `YTStor`
(StreamingStore) live in the `actions` module, which is not among the
sources; the small parts of their behaviour that the filesystem layer needs
are modelled from the spec and marked as such.  Store objects are shared
between the search map and open file descriptors, so they are kept in an
explicit heap (`YTFS.heap`) and referenced by id.
-/

/-- Embedding of Python `str` as a list of characters. -/
abbrev PyStr := List Char

/-- POSIX error numbers raised by the embedded operations via FuseOSError. -/
inductive Errno
  | EINVAL | ENOENT | EPERM | EEXIST | EBADF | EIO | EROFS | ENOTDIR
deriving DecidableEq

/-- Association-list lookup; embeds Python dict indexing `d[k]` (with `none`
standing for a raised `KeyError`). -/
def alGet {κ α : Type} [DecidableEq κ] : List (κ × α) → κ → Option α
  | [], _ => none
  | e :: l, k => if e.1 = k then some e.2 else alGet l k

/-- Association-list assignment; embeds `d[k] = v` (update in place when the
key is present, append otherwise, preserving dict insertion order). -/
def alSet {κ α : Type} [DecidableEq κ] : List (κ × α) → κ → α → List (κ × α)
  | [], k, v => [(k, v)]
  | e :: l, k, v => if e.1 = k then (k, v) :: l else e :: alSet l k v

/-- Association-list deletion; embeds `del d[k]` (callers check presence,
matching the `KeyError` branches of the source). -/
def alDel {κ α : Type} [DecidableEq κ] : List (κ × α) → κ → List (κ × α)
  | [], _ => []
  | e :: l, k => if e.1 = k then alDel l k else e :: alDel l k

/-- Keys of an association list; embeds `d.keys()`. -/
def alKeys {κ α : Type} (l : List (κ × α)) : List κ := l.map Prod.fst

/-- Modelled from the spec: `YTStor` (StreamingStore) of the `actions`
module is not among the sources.  `obtainOk` is the fixed outcome of URL
resolution reported by `obtainInfo`, `data` the cached media bytes,
`cleaned` the flag set by `clean`/cleanup, `handles` the set of registered
reader descriptors. -/
structure YTStor where
  obtainOk : Bool
  data : PyStr
  cleaned : Bool
  handles : List Nat
deriving DecidableEq

/-- Modelled from the spec: `YTStor.read(offset, length, fh)` returns up to
`length` bytes starting at `offset`; after cleanup no further reads are
valid and a read on a stale store fails with EIO (spec sections 4.5 and 8). -/
def YTStor.read (st : YTStor) (offset length _fh : Nat) : Except Errno PyStr :=
  if st.cleaned then Except.error Errno.EIO
  else Except.ok ((st.data.drop offset).take length)

/-- Modelled from the spec: cleanup cancels downloads and releases the
cache storage of the store. -/
def YTStor.clean (st : YTStor) : YTStor := { st with cleaned := true, data := [] }

/-- Modelled from the spec: `YTActions` (ResultSet) of the `actions` module
is not among the sources.  It owns the query, the insertion-ordered mapping
from result name to store id, and a pagination cursor; the embedding records
each performed page operation in `pageHistory` (most recent first). -/
structure YTActions where
  query : Option PyStr
  entries : List (PyStr × Nat)
  pageHistory : List (Option Bool)
deriving DecidableEq

/-- Embeds the constructor call `YTActions(tid[0])`. -/
def YTActions.create (q : Option PyStr) : YTActions := ⟨q, [], []⟩

/-- Modelled from the spec: `updateResults(d)` pages forward
(`d = some true`), backward (`d = some false`) or refreshes (`d = none`),
rebuilding the name map from the remote service.  The embedding records the
operation and leaves the fetched entries abstract. -/
def YTActions.updateResults (a : YTActions) (d : Option Bool) : YTActions :=
  { a with pageHistory := d :: a.pageHistory }

/-- Modelled from the spec: membership (Python `in`) on a `YTActions` object
covers the result names of the current page plus the two always-present
control files " next" and " prev". -/
def YTActions.hasName (a : YTActions) (f : PyStr) : Bool :=
  (alGet a.entries f).isSome || decide (f = " next".toList) || decide (f = " prev".toList)

/-- Modelled from the spec: item lookup `searches[q][name]` yields the store
of a result name; control names are not bound to stores, so their lookup
raises `KeyError` (the control-file branch of `YTFS.open`). -/
def YTActions.getStore (a : YTActions) (f : PyStr) : Option Nat := alGet a.entries f

/-- Invokes `clean` on every store owned by the given ids; embeds
`YTActions.clean` calling cleanup on each owned `YTStor` in the heap. -/
def heapCleanMany (h : List (Nat × YTStor)) (sids : List Nat) : List (Nat × YTStor) :=
  h.map (fun e => if e.1 ∈ sids then (e.1, e.2.clean) else e)

/-- Embeds the `while k in self.keys(): k += 1` search of `fd_dict.push`,
driven by explicit fuel. -/
def leastNotIn (keys : List Nat) : Nat → Nat → Nat
  | 0, k => k
  | fuel + 1, k => if k ∈ keys then leastNotIn keys fuel (k + 1) else k

/-- Descriptor chosen by `fd_dict.push`: the least natural number that is
not a key of the table (the fuel `length + 1` always suffices). -/
def fdPush (fds : List (Nat × Option Nat)) : Nat :=
  leastNotIn (alKeys fds) (fds.length + 1) 0

/-- Embeds `fd_dict.push(yts)`: allocate the lowest unused descriptor, bind
it to the store id (or `none` for a control file) and return it with the
updated table. -/
def fd_dict.push (fds : List (Nat × Option Nat)) (yts : Option Nat) :
    Nat × List (Nat × Option Nat) :=
  (fdPush fds, alSet fds (fdPush fds) yts)

/-- Mount state of YTFS: `searches` maps query to `YTActions`, `heap` gives
identity to the shared `YTStor` objects, `fds` is the `fd_dict` binding each
descriptor to a store id or to `none` for control files. -/
structure YTFS where
  searches : List (Option PyStr × YTActions)
  heap : List (Nat × YTStor)
  fds : List (Nat × Option Nat)
deriving DecidableEq

/-- Embeds `YTFS.__sh_script = b"#!/bin/sh\n"`. -/
def YTFS.sh_script : PyStr := "#!/bin/sh\n".toList

/-- Helper for `splitSlash`: accumulates the current segment (reversed). -/
def splitSlashAux : List Char → List Char → List PyStr
  | [], acc => [acc.reverse]
  | c :: cs, acc =>
    if c = '/' then acc.reverse :: splitSlashAux cs []
    else splitSlashAux cs (c :: acc)

/-- Embeds Python `path.split('/')`. -/
def splitSlash (path : PyStr) : List PyStr := splitSlashAux path []

/-- Embeds Python truthiness of an optional string: `None` and the empty
string are falsy. -/
def falsy : Option PyStr → Bool
  | none => true
  | some x => decide (x = [])

/-- Embeds `YTFS.__pathToTuple`; `Except.error ()` stands for the raised
`ValueError`, which `_pathdec` maps to EINVAL. -/
def pathToTuple (path : PyStr) : Except Unit (Option PyStr × Option PyStr) :=
  if path = [] ∨ path.count '/' > 2 then Except.error ()
  else
    match splitSlash path with
    | [] => Except.error ()
    | s0 :: rest =>
      if s0 ≠ [] then Except.error ()
      else if rest = [] then Except.error ()
      else
        let r := if rest.getLast? = some [] then rest.dropLast else rest
        if r.length > 2 then Except.error ()
        else
          let d := r[0]?
          let f := r[1]?
          if falsy d && !falsy f then Except.error ()
          else Except.ok (d, f)

/-- Embeds the enumeration `YTFS.PathType`. -/
inductive PathType
  | invalid | main | subdir | file | ctrl
deriving DecidableEq

/-- Embeds `YTFS.PathType.get` on tuple identifiers (the string case is
covered by composing with `pathToTuple`, as `_pathdec` does). -/
def PathType.get : Option PyStr × Option PyStr → PathType
  | (none, none) => PathType.main
  | (some d, none) => if d = [] then PathType.invalid else PathType.subdir
  | (none, some _) => PathType.invalid
  | (some d, some f) =>
    if d = [] ∨ f = [] then PathType.invalid
    else if f.head? = some ' ' then PathType.ctrl
    else PathType.file

/-- Embeds `YTFS.__exists` on tuple identifiers. -/
def YTFS.existsT (s : YTFS) (t : Option PyStr × Option PyStr) : Bool :=
  (falsy t.1 && falsy t.2) ||
  ((alGet s.searches t.1).isSome && falsy t.2) ||
  (match alGet s.searches t.1, t.2 with
   | some a, some f => a.hasName f
   | _, _ => false)

/-- Embeds `YTFS.mkdir` (with `_pathdec` applied). -/
def YTFS.mkdir (s : YTFS) (path : PyStr) : Except Errno YTFS :=
  match pathToTuple path with
  | Except.error _ => Except.error Errno.EINVAL
  | Except.ok t =>
    if PathType.get t = PathType.invalid ∨ PathType.get t = PathType.file then
      Except.error Errno.EPERM
    else if s.existsT t then Except.error Errno.EEXIST
    else Except.ok { s with
      searches := alSet s.searches t.1 ((YTActions.create t.1).updateResults none) }

/-- Embeds `YTFS.rename`; the conversion of `new` inside the body raises
`ValueError` within the decorator's `try`, hence also maps to EINVAL. -/
def YTFS.rename (s : YTFS) (old new : PyStr) : Except Errno YTFS :=
  match pathToTuple old with
  | Except.error _ => Except.error Errno.EINVAL
  | Except.ok told =>
    match pathToTuple new with
    | Except.error _ => Except.error Errno.EINVAL
    | Except.ok tnew =>
      if ¬ s.existsT told then Except.error Errno.ENOENT
      else if PathType.get told ≠ PathType.subdir ∨ PathType.get tnew ≠ PathType.subdir then
        Except.error Errno.EPERM
      else if s.existsT tnew then Except.error Errno.EEXIST
      else
        let searches1 := alSet s.searches tnew.1 ((YTActions.create tnew.1).updateResults none)
        match alGet searches1 told.1 with
        | none => Except.error Errno.ENOENT
        | some _ => Except.ok { s with searches := alDel searches1 told.1 }

/-- Embeds `YTFS.rmdir`: the owned `YTActions` is asked to clean its stores
(`searches[tid[0]].clean()`), then the query is deleted. -/
def YTFS.rmdir (s : YTFS) (path : PyStr) : Except Errno YTFS :=
  match pathToTuple path with
  | Except.error _ => Except.error Errno.EINVAL
  | Except.ok t =>
    if PathType.get t = PathType.main then Except.error Errno.EINVAL
    else if PathType.get t ≠ PathType.subdir then Except.error Errno.ENOTDIR
    else
      match alGet s.searches t.1 with
      | none => Except.error Errno.ENOENT
      | some a => Except.ok { s with
          heap := heapCleanMany s.heap (a.entries.map Prod.snd),
          searches := alDel s.searches t.1 }

/-- Embeds `YTFS.unlink`: the body does nothing and returns 0, but the
`_pathdec` decorator still decodes the path. -/
def YTFS.unlink (s : YTFS) (path : PyStr) : Except Errno (YTFS × Nat) :=
  match pathToTuple path with
  | Except.error _ => Except.error Errno.EINVAL
  | Except.ok _ => Except.ok (s, 0)

/-- Embeds `os.O_WRONLY` on Linux. -/
def O_WRONLY : Nat := 1

/-- Embeds `os.O_RDWR` on Linux. -/
def O_RDWR : Nat := 2

/-- Embeds `YTFS.open` (`open` is reserved in Lean).  The final catch-all
branch embeds the `KeyError` path that allocates an unbound descriptor for a
control file. -/
def YTFS.opn (s : YTFS) (path : PyStr) (flags : Nat) : Except Errno (YTFS × Nat) :=
  match pathToTuple path with
  | Except.error _ => Except.error Errno.EINVAL
  | Except.ok t =>
    if PathType.get t ≠ PathType.file ∧ PathType.get t ≠ PathType.ctrl then
      Except.error Errno.EINVAL
    else if flags &&& O_WRONLY ≠ 0 ∨ flags &&& O_RDWR ≠ 0 then
      Except.error Errno.EROFS
    else if ¬ s.existsT t then Except.error Errno.ENOENT
    else
      match alGet s.searches t.1, t.2 with
      | some a, some f =>
        match a.getStore f with
        | some sid =>
          match alGet s.heap sid with
          | some st =>
            if st.obtainOk then
              Except.ok ({ s with
                fds := alSet s.fds (fdPush s.fds) (some sid),
                heap := alSet s.heap sid
                  { st with handles := fdPush s.fds :: st.handles } }, fdPush s.fds)
            else Except.error Errno.ENOENT
          | none => Except.error Errno.EIO
        | none =>
          Except.ok ({ s with fds := alSet s.fds (fdPush s.fds) none }, fdPush s.fds)
      | _, _ =>
        Except.ok ({ s with fds := alSet s.fds (fdPush s.fds) none }, fdPush s.fds)

/-- Embeds `YTFS.read`.  A descriptor bound to a store delegates to
`YTStor.read`; a descriptor bound to `None` raises `AttributeError`, which
selects the control-file branch: page according to the file name, then
return the requested slice of the fixed shell script. -/
def YTFS.read (s : YTFS) (path : PyStr) (length offset fh : Nat) :
    Except Errno (YTFS × PyStr) :=
  match pathToTuple path with
  | Except.error _ => Except.error Errno.EINVAL
  | Except.ok t =>
    match alGet s.fds fh with
    | none => Except.error Errno.EBADF
    | some (some sid) =>
      match alGet s.heap sid with
      | none => Except.error Errno.EIO
      | some st =>
        match st.read offset length fh with
        | Except.error e => Except.error e
        | Except.ok bs => Except.ok (s, bs)
    | some none =>
      let d : Option Bool :=
        if t.2 = some " next".toList then some true
        else if t.2 = some " prev".toList then some false
        else none
      match alGet s.searches t.1 with
      | none => Except.error Errno.EINVAL
      | some a =>
        Except.ok ({ s with searches := alSet s.searches t.1 (a.updateResults d) },
          (YTFS.sh_script.drop offset).take length)

/-- Embeds `YTFS.release`: delete the descriptor from `fds`, EBADF when it
is absent.  Nothing else is touched. -/
def YTFS.release (s : YTFS) (path : PyStr) (fh : Nat) : Except Errno (YTFS × Nat) :=
  match pathToTuple path with
  | Except.error _ => Except.error Errno.EINVAL
  | Except.ok _ =>
    match alGet s.fds fh with
    | none => Except.error Errno.EBADF
    | some _ => Except.ok ({ s with fds := alDel s.fds fh }, 0)

theorem alGet_alSet_self {κ α : Type} [DecidableEq κ] (l : List (κ × α)) (k : κ) (v : α) :
    alGet (alSet l k v) k = some v := by
  induction l with
  | nil => simp [alSet, alGet]
  | cons e l ih =>
    by_cases h : e.1 = k
    · simp [alSet, h, alGet]
    · simp [alSet, h, alGet, ih]

theorem alGet_alSet_ne {κ α : Type} [DecidableEq κ] (l : List (κ × α)) (k k' : κ) (v : α)
    (h : k' ≠ k) : alGet (alSet l k v) k' = alGet l k' := by
  have hkk : k ≠ k' := Ne.symm h
  induction l with
  | nil => simp [alSet, alGet, hkk]
  | cons e l ih =>
    by_cases he : e.1 = k
    · simp [alSet, he, alGet, hkk]
    · by_cases he' : e.1 = k'
      · simp [alSet, he, alGet, he', h]
      · simp [alSet, he, alGet, he', ih]

theorem alGet_alDel_self {κ α : Type} [DecidableEq κ] (l : List (κ × α)) (k : κ) :
    alGet (alDel l k) k = none := by
  induction l with
  | nil => simp [alDel, alGet]
  | cons e l ih =>
    by_cases h : e.1 = k
    · simp [alDel, h, ih]
    · simp [alDel, h, alGet, ih]

theorem alGet_alDel_ne {κ α : Type} [DecidableEq κ] (l : List (κ × α)) (k k' : κ)
    (h : k' ≠ k) : alGet (alDel l k) k' = alGet l k' := by
  induction l with
  | nil => simp [alDel]
  | cons e l ih =>
    by_cases he : e.1 = k
    · have hkk : k ≠ k' := Ne.symm h
      simp [alDel, he, alGet, hkk, ih]
    · simp [alDel, he, alGet, ih]

theorem alGet_eq_none_of_not_mem {κ α : Type} [DecidableEq κ] (l : List (κ × α)) (k : κ)
    (h : k ∉ alKeys l) : alGet l k = none := by
  induction l with
  | nil => simp [alGet]
  | cons e l ih =>
    simp only [alKeys, List.map_cons, List.mem_cons, not_or] at h
    have h2 : k ∉ alKeys l := h.2
    simp [alGet, Ne.symm h.1, ih h2]

theorem alDel_alSet_of_none {κ α : Type} [DecidableEq κ] (l : List (κ × α)) (k : κ) (v : α)
    (h : alGet l k = none) : alDel (alSet l k v) k = l := by
  induction l with
  | nil => simp [alSet, alDel]
  | cons e l ih =>
    by_cases he : e.1 = k
    · simp [alGet, he] at h
    · simp [alGet, he] at h
      simp [alSet, he, alDel, ih h]

theorem heapCleanMany_get_mem (hp : List (Nat × YTStor)) (sids : List Nat) (sid : Nat)
    (st : YTStor) (hmem : sid ∈ sids) (hg : alGet hp sid = some st) :
    alGet (heapCleanMany hp sids) sid = some st.clean := by
  induction hp with
  | nil => simp [alGet] at hg
  | cons e l ih =>
    by_cases he : e.1 = sid
    · simp [alGet, he] at hg
      subst hg
      simp [heapCleanMany, he, hmem, alGet]
    · simp [alGet, he] at hg
      by_cases hm : e.1 ∈ sids <;>
        simpa [heapCleanMany, he, hm, alGet] using ih hg

theorem length_filter_succ_le (keys : List Nat) (k : Nat) :
    (keys.filter (fun j => decide (k + 1 ≤ j))).length ≤
      (keys.filter (fun j => decide (k ≤ j))).length := by
  induction keys with
  | nil => simp
  | cons x xs ih =>
    rw [List.filter_cons, List.filter_cons]
    by_cases h1 : k + 1 ≤ x
    · have h2 : k ≤ x := by omega
      simpa [h1, h2] using ih
    · by_cases h2 : k ≤ x
      · simp [h1, h2]
        exact Nat.le_succ_of_le ih
      · simpa [h1, h2] using ih

theorem length_filter_succ_lt (keys : List Nat) (k : Nat) (h : k ∈ keys) :
    (keys.filter (fun j => decide (k + 1 ≤ j))).length <
      (keys.filter (fun j => decide (k ≤ j))).length := by
  induction keys with
  | nil => simp at h
  | cons x xs ih =>
    rw [List.filter_cons, List.filter_cons]
    by_cases hx : x = k
    · subst hx
      have h1 : ¬ (x + 1 ≤ x) := by omega
      simp [h1]
      exact Nat.lt_succ_of_le (length_filter_succ_le xs x)
    · have hmem : k ∈ xs := by
        rcases List.mem_cons.mp h with h' | h'
        · exact absurd h'.symm hx
        · exact h'
      by_cases h1 : k + 1 ≤ x
      · have h2 : k ≤ x := by omega
        simpa [h1, h2] using ih hmem
      · have h2 : ¬ (k ≤ x) := by omega
        simpa [h1, h2] using ih hmem

theorem leastNotIn_not_mem (keys : List Nat) :
    ∀ fuel k, (keys.filter (fun j => decide (k ≤ j))).length < fuel →
      leastNotIn keys fuel k ∉ keys := by
  intro fuel
  induction fuel with
  | zero => intro k h; omega
  | succ f ih =>
    intro k h
    by_cases hk : k ∈ keys
    · simp only [leastNotIn, hk, if_true]
      exact ih (k + 1) (by
        have := length_filter_succ_lt keys k hk
        omega)
    · simp only [leastNotIn, if_neg hk]
      exact hk

theorem leastNotIn_mem_of_lt (keys : List Nat) :
    ∀ fuel k j, k ≤ j → j < leastNotIn keys fuel k → j ∈ keys := by
  intro fuel
  induction fuel with
  | zero =>
    intro k j hkj hj
    simp only [leastNotIn] at hj
    omega
  | succ f ih =>
    intro k j hkj hj
    by_cases hk : k ∈ keys
    · simp only [leastNotIn, hk, if_true] at hj
      rcases Nat.eq_or_lt_of_le hkj with h | h
      · exact h ▸ hk
      · exact ih (k + 1) j h hj
    · simp only [leastNotIn, hk, if_false] at hj
      omega

theorem fdPush_not_mem (fds : List (Nat × Option Nat)) : fdPush fds ∉ alKeys fds := by
  apply leastNotIn_not_mem
  have hfull : (alKeys fds).filter (fun j => decide (0 ≤ j)) = alKeys fds :=
    List.filter_eq_self.mpr (by intro a _; simp)
  rw [hfull]
  simp [alKeys]

theorem fdPush_min (fds : List (Nat × Option Nat)) (j : Nat) (h : j < fdPush fds) :
    j ∈ alKeys fds :=
  leastNotIn_mem_of_lt (alKeys fds) (fds.length + 1) 0 j (Nat.zero_le j) h

/-- C2: fd_dict.push allocates the smallest non-negative integer that is not
currently a key of the table; after release of that descriptor succeeds the
integer is absent from the table (the table is exactly restored), so a
subsequent allocation returns it again. -/
theorem C2_fd_push_smallest_and_reusable (s : YTFS) (path : PyStr)
    (t : Option PyStr × Option PyStr) (v : Option Nat)
    (hp : pathToTuple path = Except.ok t) :
    fd_dict.push s.fds v = (fdPush s.fds, alSet s.fds (fdPush s.fds) v) ∧
    fdPush s.fds ∉ alKeys s.fds ∧
    (∀ j, j < fdPush s.fds → j ∈ alKeys s.fds) ∧
    YTFS.release { s with fds := alSet s.fds (fdPush s.fds) v } path (fdPush s.fds)
      = Except.ok (s, 0) ∧
    fd_dict.push (alDel (alSet s.fds (fdPush s.fds) v) (fdPush s.fds)) v
      = fd_dict.push s.fds v := by
  have hnone : alGet s.fds (fdPush s.fds) = none :=
    alGet_eq_none_of_not_mem _ _ (fdPush_not_mem s.fds)
  have hrestore : alDel (alSet s.fds (fdPush s.fds) v) (fdPush s.fds) = s.fds :=
    alDel_alSet_of_none _ _ _ hnone
  refine ⟨rfl, fdPush_not_mem s.fds, fun j hj => fdPush_min s.fds j hj, ?_, ?_⟩
  · have hget : alGet (alSet s.fds (fdPush s.fds) v) (fdPush s.fds) = some v :=
      alGet_alSet_self _ _ _
    simp only [YTFS.release, hp, hget, hrestore]
  · rw [hrestore]

/-- C2 witness: on the table {0, 1} the allocator picks 2; pushing then
releasing 2 through YTFS.release restores the original state. -/
theorem C2_fd_push_smallest_and_reusable_witness :
    fdPush [(0, (none : Option Nat)), (1, some 5)]
        ∉ alKeys [(0, (none : Option Nat)), (1, some 5)] ∧
    YTFS.release
        { searches := [], heap := [],
          fds := alSet [(0, (none : Option Nat)), (1, some 5)]
            (fdPush [(0, (none : Option Nat)), (1, some 5)]) (some 7) }
        "/".toList (fdPush [(0, (none : Option Nat)), (1, some 5)])
      = Except.ok (⟨[], [], [(0, (none : Option Nat)), (1, some 5)]⟩, 0) := by
  have h := C2_fd_push_smallest_and_reusable ⟨[], [], [(0, none), (1, some 5)]⟩
    "/".toList (none, none) (some 7) rfl
  exact ⟨h.2.1, h.2.2.2.1⟩

/-- C10 (amended): unlink removes nothing and returns success 0 with the
state unchanged on every path the `_pathdec` decorator can decode; a path
the decoder rejects fails with EINVAL instead of succeeding. -/
theorem C10_unlink_noop (s : YTFS) (path : PyStr) :
    (∀ t, pathToTuple path = Except.ok t → YTFS.unlink s path = Except.ok (s, 0)) ∧
    (pathToTuple path = Except.error () → YTFS.unlink s path = Except.error Errno.EINVAL) := by
  constructor
  · intro t ht
    simp only [YTFS.unlink, ht]
  · intro ht
    simp only [YTFS.unlink, ht]

/-- C10 witness: unlink on a decodable file path returns 0 and leaves the
state untouched. -/
theorem C10_unlink_noop_witness :
    YTFS.unlink ⟨[], [], []⟩ "/a/b".toList = Except.ok (⟨[], [], []⟩, 0) :=
  (C10_unlink_noop ⟨[], [], []⟩ "/a/b".toList).1
    (some "a".toList, some "b".toList) rfl

/-- C10 counterexample: on the undecodable path "x" unlink does not return
success; the path decorator raises ValueError, surfaced as EINVAL. -/
theorem C10_unlink_cex :
    YTFS.unlink ⟨[], [], []⟩ "x".toList = Except.error Errno.EINVAL := rfl

/-- C9 (amended): rmdir fails EINVAL on the root path (and on paths the
decorator cannot decode), ENOTDIR on every other decodable path that is not
a search-directory path, ENOENT when the named query is absent, and on an
existing query directory cleans every owned store before removing the query
from the search map. -/
theorem C9_rmdir_cleans_then_drops (s : YTFS) (path : PyStr) :
    (pathToTuple path = Except.error () → YTFS.rmdir s path = Except.error Errno.EINVAL) ∧
    (∀ t, pathToTuple path = Except.ok t →
      (PathType.get t = PathType.main → YTFS.rmdir s path = Except.error Errno.EINVAL) ∧
      (PathType.get t ≠ PathType.main → PathType.get t ≠ PathType.subdir →
        YTFS.rmdir s path = Except.error Errno.ENOTDIR) ∧
      (PathType.get t = PathType.subdir → alGet s.searches t.1 = none →
        YTFS.rmdir s path = Except.error Errno.ENOENT) ∧
      (∀ a, PathType.get t = PathType.subdir → alGet s.searches t.1 = some a →
        YTFS.rmdir s path = Except.ok { s with
          heap := heapCleanMany s.heap (a.entries.map Prod.snd),
          searches := alDel s.searches t.1 } ∧
        alGet (alDel s.searches t.1) t.1 = none ∧
        (∀ sid st, sid ∈ a.entries.map Prod.snd → alGet s.heap sid = some st →
          alGet (heapCleanMany s.heap (a.entries.map Prod.snd)) sid = some st.clean ∧
          st.clean.cleaned = true))) := by
  constructor
  · intro ht
    simp only [YTFS.rmdir, ht]
  · intro t ht
    refine ⟨?_, ?_, ?_, ?_⟩
    · intro hm
      simp [YTFS.rmdir, ht, hm]
    · intro hm hsub
      simp [YTFS.rmdir, ht, hm, hsub]
    · intro hsub hnone
      simp [YTFS.rmdir, ht, hsub, hnone]
    · intro a hsub ha
      refine ⟨?_, alGet_alDel_self _ _, ?_⟩
      · simp [YTFS.rmdir, ht, hsub, ha]
      · intro sid st hmem hst
        exact ⟨heapCleanMany_get_mem s.heap _ sid st hmem hst, rfl⟩

/-- C9 witness: removing the existing query directory /cats cleans its one
owned store (id 0) and removes the query from the search map. -/
theorem C9_rmdir_cleans_then_drops_witness :
    YTFS.rmdir ⟨[(some "cats".toList, ⟨some "cats".toList, [("vid".toList, 0)], []⟩)],
        [(0, ⟨true, ['x'], false, []⟩)], []⟩ "/cats".toList
      = Except.ok ⟨[], [(0, ⟨true, [], true, []⟩)], []⟩ ∧
    alGet (heapCleanMany [(0, (⟨true, ['x'], false, []⟩ : YTStor))] [0]) 0
      = some (⟨true, [], true, []⟩ : YTStor) := by
  have h := ((C9_rmdir_cleans_then_drops
      ⟨[(some "cats".toList, ⟨some "cats".toList, [("vid".toList, 0)], []⟩)],
        [(0, ⟨true, ['x'], false, []⟩)], []⟩ "/cats".toList).2
      (some "cats".toList, none) rfl).2.2.2
      ⟨some "cats".toList, [("vid".toList, 0)], []⟩ rfl rfl
  exact ⟨h.1, (h.2.2 0 ⟨true, ['x'], false, []⟩ (by decide) rfl).1⟩

/-- C9 counterexample: "x" is not a search-directory path, yet rmdir fails
with EINVAL (the path decorator rejects it), not with ENOTDIR as claimed. -/
theorem C9_rmdir_cex :
    YTFS.rmdir ⟨[], [], []⟩ "x".toList = Except.error Errno.EINVAL := rfl

/-- C3 (amended): mkdir fails EINVAL on undecodable paths, EPERM when the
decoded path classifies as invalid or as a result file, EEXIST when the
target already exists (so in particular the root always yields EEXIST), and
otherwise - on a search-directory path, or on a control-file path whose
query does not exist - creates and initializes a new ResultSet bound to the
first path component and returns success. -/
theorem C3_mkdir_spec (s : YTFS) (path : PyStr) :
    (pathToTuple path = Except.error () → YTFS.mkdir s path = Except.error Errno.EINVAL) ∧
    (∀ t, pathToTuple path = Except.ok t →
      ((PathType.get t = PathType.invalid ∨ PathType.get t = PathType.file) →
        YTFS.mkdir s path = Except.error Errno.EPERM) ∧
      (PathType.get t ≠ PathType.invalid → PathType.get t ≠ PathType.file →
        s.existsT t = true → YTFS.mkdir s path = Except.error Errno.EEXIST) ∧
      (PathType.get t ≠ PathType.invalid → PathType.get t ≠ PathType.file →
        s.existsT t = false →
        YTFS.mkdir s path = Except.ok { s with
          searches := alSet s.searches t.1 ((YTActions.create t.1).updateResults none) } ∧
        alGet (alSet s.searches t.1 ((YTActions.create t.1).updateResults none)) t.1
          = some ((YTActions.create t.1).updateResults none))) := by
  constructor
  · intro ht
    simp only [YTFS.mkdir, ht]
  · intro t ht
    refine ⟨?_, ?_, ?_⟩
    · intro hperm
      simp [YTFS.mkdir, ht, hperm]
    · intro h1 h2 hex
      simp [YTFS.mkdir, ht, h1, h2, hex]
    · intro h1 h2 hex
      exact ⟨by simp [YTFS.mkdir, ht, h1, h2, hex], alGet_alSet_self _ _ _⟩

/-- C3 witness: mkdir on the fresh search-directory path /dogs creates and
initializes a ResultSet bound to the query "dogs". -/
theorem C3_mkdir_spec_witness :
    YTFS.mkdir ⟨[], [], []⟩ "/dogs".toList
      = Except.ok ⟨[(some "dogs".toList, ⟨some "dogs".toList, [], [none]⟩)], [], []⟩ ∧
    alGet [(some "dogs".toList, (⟨some "dogs".toList, [], [none]⟩ : YTActions))]
        (some "dogs".toList)
      = some ⟨some "dogs".toList, [], [none]⟩ := by
  have h := ((C3_mkdir_spec ⟨[], [], []⟩ "/dogs".toList).2 (some "dogs".toList, none)
    rfl).2.2 (by decide) (by decide) rfl
  exact ⟨h.1, h.2⟩

/-- C3 counterexample: the root path "/" is not of the form /query, yet
mkdir fails with EEXIST rather than EPERM; the control-file path "/q/ x"
is not of that form either, yet mkdir succeeds and creates the query q;
the undecodable path "x" fails EINVAL, not EPERM. -/
theorem C3_mkdir_cex :
    YTFS.mkdir ⟨[], [], []⟩ "/".toList = Except.error Errno.EEXIST ∧
    YTFS.mkdir ⟨[], [], []⟩ "/q/ x".toList
      = Except.ok ⟨[(some "q".toList, ⟨some "q".toList, [], [none]⟩)], [], []⟩ ∧
    YTFS.mkdir ⟨[], [], []⟩ "x".toList = Except.error Errno.EINVAL :=
  ⟨rfl, rfl, rfl⟩

/-- C8 (amended): release on a descriptor present in the table removes it
from the table (and on one not in the table fails EBADF), but it performs
no unregistration: the heap, and with it every store's registered-handle
set, is left exactly as it was. -/
theorem C8_release_drops_but_never_unregisters (s : YTFS) (path : PyStr)
    (t : Option PyStr × Option PyStr) (fh : Nat)
    (hp : pathToTuple path = Except.ok t) :
    (∀ b, alGet s.fds fh = some b →
      YTFS.release s path fh = Except.ok ({ s with fds := alDel s.fds fh }, 0) ∧
      alGet (alDel s.fds fh) fh = none) ∧
    (alGet s.fds fh = none → YTFS.release s path fh = Except.error Errno.EBADF) ∧
    (∀ s2 r, YTFS.release s path fh = Except.ok (s2, r) →
      s2.heap = s.heap ∧ s2.searches = s.searches) := by
  refine ⟨?_, ?_, ?_⟩
  · intro b hb
    exact ⟨by simp [YTFS.release, hp, hb], alGet_alDel_self _ _⟩
  · intro hb
    simp [YTFS.release, hp, hb]
  · intro s2 r h
    cases hb : alGet s.fds fh with
    | none => simp [YTFS.release, hp, hb] at h
    | some b =>
      simp [YTFS.release, hp, hb] at h
      rw [← h.1]
      exact ⟨rfl, rfl⟩

/-- C8 witness: releasing descriptor 3 removes it from the table; the
store's handle set in the heap is untouched by release itself. -/
theorem C8_release_drops_but_never_unregisters_witness :
    YTFS.release ⟨[], [(0, ⟨true, [], false, [3]⟩)], [(3, some 0)]⟩ "/q/v".toList 3
      = Except.ok (⟨[], [(0, ⟨true, [], false, [3]⟩)], []⟩, 0) ∧
    alGet (alDel [(3, (some 0 : Option Nat))] 3) 3 = none := by
  have h := (C8_release_drops_but_never_unregisters
      ⟨[], [(0, ⟨true, [], false, [3]⟩)], [(3, some 0)]⟩ "/q/v".toList
      (some "q".toList, some "v".toList) 3 rfl).1 (some 0) rfl
  exact ⟨h.1, h.2⟩

/-- C8 counterexample: descriptor 3 is registered in store 0's handle set;
after a successful release of 3 the store still lists handle 3 - release
does not unregister the handle id from the store's active-handle set. -/
theorem C8_release_cex :
    YTFS.release ⟨[], [(0, ⟨true, [], false, [3]⟩)], [(3, some 0)]⟩ "/q/v".toList 3
      = Except.ok (⟨[], [(0, ⟨true, [], false, [3]⟩)], []⟩, 0) ∧
    alGet ([(0, (⟨true, [], false, [3]⟩ : YTStor))]) 0 = some ⟨true, [], false, [3]⟩ ∧
    (3 : Nat) ∈ (⟨true, [], false, [3]⟩ : YTStor).handles :=
  ⟨rfl, rfl, by decide⟩

/-- C5: after rmdir removes a query directory, a descriptor that was bound
to one of its stores never returns media data: while the handle is still
open the read fails with EIO (the store was cleaned), and after the handle
goes through the release path it fails with EBADF. -/
theorem C5_stale_handle_reads_fail (s : YTFS) (dpath rpath : PyStr) (q : PyStr)
    (a : YTActions) (rt : Option PyStr × Option PyStr) (fh sid : Nat) (st : YTStor)
    (length offset : Nat)
    (hdp : pathToTuple dpath = Except.ok (some q, none)) (hq : q ≠ [])
    (hrp : pathToTuple rpath = Except.ok rt)
    (ha : alGet s.searches (some q) = some a)
    (hsid : sid ∈ a.entries.map Prod.snd)
    (hfd : alGet s.fds fh = some (some sid))
    (hst : alGet s.heap sid = some st) :
    YTFS.rmdir s dpath = Except.ok { s with
      heap := heapCleanMany s.heap (a.entries.map Prod.snd),
      searches := alDel s.searches (some q) } ∧
    YTFS.read { s with
        heap := heapCleanMany s.heap (a.entries.map Prod.snd),
        searches := alDel s.searches (some q) } rpath length offset fh
      = Except.error Errno.EIO ∧
    (∀ s2, YTFS.release { s with
        heap := heapCleanMany s.heap (a.entries.map Prod.snd),
        searches := alDel s.searches (some q) } rpath fh = Except.ok (s2, 0) →
      YTFS.read s2 rpath length offset fh = Except.error Errno.EBADF) := by
  have hsub : PathType.get (some q, none) = PathType.subdir := by
    simp [PathType.get, hq]
  have hclean : alGet (heapCleanMany s.heap (a.entries.map Prod.snd)) sid
      = some st.clean :=
    heapCleanMany_get_mem s.heap _ sid st hsid hst
  refine ⟨?_, ?_, ?_⟩
  · simp [YTFS.rmdir, hdp, hsub, ha]
  · simp [YTFS.read, hrp, hfd, hclean, YTStor.read, YTStor.clean]
  · intro s2 h
    simp [YTFS.release, hrp, hfd] at h
    rw [← h]
    simp [YTFS.read, hrp, alGet_alDel_self]

/-- C5 witness: query /cats owns store 0, open on descriptor 3; after
rmdir /cats a read on 3 fails EIO, and after releasing 3 it fails EBADF. -/
theorem C5_stale_handle_reads_fail_witness :
    YTFS.read ⟨[], [(0, ⟨true, [], true, [3]⟩)], [(3, some 0)]⟩
        "/cats/vid".toList 4 0 3 = Except.error Errno.EIO ∧
    YTFS.read ⟨[], [(0, ⟨true, [], true, [3]⟩)], []⟩
        "/cats/vid".toList 4 0 3 = Except.error Errno.EBADF := by
  have h := C5_stale_handle_reads_fail
    ⟨[(some "cats".toList, ⟨some "cats".toList, [("vid".toList, 0)], []⟩)],
      [(0, ⟨true, ['d'], false, [3]⟩)], [(3, some 0)]⟩
    "/cats".toList "/cats/vid".toList "cats".toList
    ⟨some "cats".toList, [("vid".toList, 0)], []⟩
    (some "cats".toList, some "vid".toList) 3 0 ⟨true, ['d'], false, [3]⟩ 4 0
    rfl (by decide) rfl rfl (by decide) rfl rfl
  exact ⟨h.2.1, h.2.2 ⟨[], [(0, ⟨true, [], true, [3]⟩)], []⟩ rfl⟩

/-- C1: reading through an open descriptor bound to a control file (" next"
or " prev") under an existing query directory first triggers the query's
paging operation - forward for " next", backward for " prev" - and then
returns exactly the slice [offset, offset+length) of the fixed payload
"#!/bin/sh\n", for every offset, including offsets at or past its end. -/
theorem C1_control_read_pages_then_slices (s : YTFS) (path : PyStr) (q name : PyStr)
    (a : YTActions) (fh length offset : Nat)
    (hp : pathToTuple path = Except.ok (some q, some name))
    (hname : name = " next".toList ∨ name = " prev".toList)
    (hfd : alGet s.fds fh = some none)
    (ha : alGet s.searches (some q) = some a) :
    YTFS.read s path length offset fh = Except.ok ({ s with searches := alSet s.searches (some q) (a.updateResults (if name = " next".toList then some true else some false)) }, (YTFS.sh_script.drop offset).take length) ∧
    (a.updateResults (if name = " next".toList then some true else some false)).pageHistory
      = (if name = " next".toList then some true else some false) :: a.pageHistory := by
  rcases hname with hn | hn
  · subst hn
    simp [YTFS.read, hp, hfd, ha, YTActions.updateResults]
  · subst hn
    have hne : " prev".toList ≠ " next".toList := by decide
    simp [YTFS.read, hp, hfd, ha, hne, YTActions.updateResults]

/-- C1 witness: reading " next" under /cats at offset 12 (past the end of
the 10-byte payload) pages forward and returns the empty slice. -/
theorem C1_control_read_pages_then_slices_witness :
    YTFS.read ⟨[(some "cats".toList, ⟨some "cats".toList, [], []⟩)], [], [(0, none)]⟩
        "/cats/ next".toList 5 12 0
      = Except.ok
        (⟨[(some "cats".toList, ⟨some "cats".toList, [], [some true]⟩)], [], [(0, none)]⟩,
          []) := by
  have h := C1_control_read_pages_then_slices
    ⟨[(some "cats".toList, ⟨some "cats".toList, [], []⟩)], [], [(0, none)]⟩
    "/cats/ next".toList "cats".toList " next".toList
    ⟨some "cats".toList, [], []⟩ 0 5 12 rfl (Or.inl rfl) rfl rfl
  exact h.1

/-- C7 (amended): for paths that classify as result or control files, any
open with a write or read-write access mode fails EROFS (for all other path
types the EINVAL path-type check fires first, before the flags are
examined); an existing result file opened read-only whose store obtains its
info successfully gets a fresh descriptor bound to the store, registered in
the store's handle set before open returns. -/
theorem C7_open_erofs_and_binds (s : YTFS) (path : PyStr) (flags : Nat) :
    (∀ t, pathToTuple path = Except.ok t →
      ((PathType.get t = PathType.file ∨ PathType.get t = PathType.ctrl) →
        (flags &&& O_WRONLY ≠ 0 ∨ flags &&& O_RDWR ≠ 0) →
        YTFS.opn s path flags = Except.error Errno.EROFS) ∧
      (PathType.get t ≠ PathType.file → PathType.get t ≠ PathType.ctrl →
        YTFS.opn s path flags = Except.error Errno.EINVAL)) ∧
    (∀ q f a sid st, pathToTuple path = Except.ok (some q, some f) →
      q ≠ [] → f ≠ [] → f.head? ≠ some ' ' →
      flags &&& O_WRONLY = 0 → flags &&& O_RDWR = 0 →
      alGet s.searches (some q) = some a → a.getStore f = some sid →
      alGet s.heap sid = some st → st.obtainOk = true →
      YTFS.opn s path flags = Except.ok ({ s with fds := alSet s.fds (fdPush s.fds) (some sid), heap := alSet s.heap sid { st with handles := fdPush s.fds :: st.handles } }, fdPush s.fds) ∧
      fdPush s.fds ∉ alKeys s.fds ∧
      alGet (alSet s.heap sid { st with handles := fdPush s.fds :: st.handles }) sid
        = some { st with handles := fdPush s.fds :: st.handles } ∧
      fdPush s.fds ∈ ({ st with handles := fdPush s.fds :: st.handles } : YTStor).handles) := by
  constructor
  · intro t ht
    constructor
    · intro hpt hflags
      rcases hpt with hpt | hpt <;>
        simp [YTFS.opn, ht, hpt, hflags]
    · intro h1 h2
      simp [YTFS.opn, ht, h1, h2]
  · intro q f a sid st hp hq hf hhead hw hr ha hsid hst hok
    have hpt : PathType.get (some q, some f) = PathType.file := by
      simp [PathType.get, hq, hf, hhead]
    have hget : alGet a.entries f = some sid := hsid
    have hex : s.existsT (some q, some f) = true := by
      simp [YTFS.existsT, falsy, ha, YTActions.hasName, hget]
    refine ⟨?_, fdPush_not_mem s.fds, alGet_alSet_self _ _ _, by simp⟩
    simp [YTFS.opn, hp, hpt, hw, hr, hex, ha, hsid, hst, hok]

/-- C7 witness: opening the existing result file /q/v read-only allocates
descriptor 0 bound to store 5 and registers 0 in the store's handle set. -/
theorem C7_open_erofs_and_binds_witness :
    YTFS.opn ⟨[(some "q".toList, ⟨some "q".toList, [("v".toList, 5)], []⟩)],
        [(5, ⟨true, ['m'], false, []⟩)], []⟩ "/q/v".toList 0
      = Except.ok
        (⟨[(some "q".toList, ⟨some "q".toList, [("v".toList, 5)], []⟩)],
          [(5, ⟨true, ['m'], false, [0]⟩)], [(0, some 5)]⟩, 0) := by
  have h := (C7_open_erofs_and_binds
    ⟨[(some "q".toList, ⟨some "q".toList, [("v".toList, 5)], []⟩)],
      [(5, ⟨true, ['m'], false, []⟩)], []⟩ "/q/v".toList 0).2
    "q".toList "v".toList ⟨some "q".toList, [("v".toList, 5)], []⟩ 5
    ⟨true, ['m'], false, []⟩ rfl (by decide) (by decide) (by decide) rfl rfl rfl rfl
    rfl rfl
  exact h.1

/-- C7 counterexample: open with O_WRONLY on the root path fails EINVAL
(the path-type check precedes the access-mode check), not EROFS; and an
existing result file whose store cannot obtain its info yields ENOENT
rather than a bound descriptor. -/
theorem C7_open_cex :
    YTFS.opn ⟨[], [], []⟩ "/".toList O_WRONLY = Except.error Errno.EINVAL ∧
    YTFS.opn ⟨[(some "q".toList, ⟨some "q".toList, [("v".toList, 0)], []⟩)],
        [(0, ⟨false, [], false, []⟩)], []⟩ "/q/v".toList 0
      = Except.error Errno.ENOENT :=
  ⟨rfl, rfl⟩

/-- C4 (amended): renaming an existing search directory to a fresh one
succeeds and leaves only the new query in the search map - the old query is
absent, every other query untouched - but the old query's stores are merely
dropped from the namespace: the heap is left unchanged, so cleanup is not
invoked on any of them.  When the old path does not exist rename fails
ENOENT (even when a path is not a search-dir path); when the old path
exists and either path is not a search-dir path it fails EPERM; when the
new name already exists it fails EEXIST. -/
theorem C4_rename_swaps_without_cleanup (s : YTFS) (old new : PyStr) :
    (∀ told tnew, pathToTuple old = Except.ok told → pathToTuple new = Except.ok tnew →
      (s.existsT told = false → YTFS.rename s old new = Except.error Errno.ENOENT) ∧
      (s.existsT told = true →
        (PathType.get told ≠ PathType.subdir ∨ PathType.get tnew ≠ PathType.subdir) →
        YTFS.rename s old new = Except.error Errno.EPERM) ∧
      (s.existsT told = true → PathType.get told = PathType.subdir →
        PathType.get tnew = PathType.subdir → s.existsT tnew = true →
        YTFS.rename s old new = Except.error Errno.EEXIST)) ∧
    (∀ qo qn aold, pathToTuple old = Except.ok (some qo, none) →
      pathToTuple new = Except.ok (some qn, none) → qo ≠ [] → qn ≠ [] →
      alGet s.searches (some qo) = some aold → alGet s.searches (some qn) = none →
      YTFS.rename s old new = Except.ok { s with searches := alDel (alSet s.searches (some qn) ((YTActions.create (some qn)).updateResults none)) (some qo) } ∧
      ({ s with searches := alDel (alSet s.searches (some qn) ((YTActions.create (some qn)).updateResults none)) (some qo) } : YTFS).heap = s.heap ∧
      alGet (alDel (alSet s.searches (some qn) ((YTActions.create (some qn)).updateResults none)) (some qo)) (some qn) = some ((YTActions.create (some qn)).updateResults none) ∧
      alGet (alDel (alSet s.searches (some qn) ((YTActions.create (some qn)).updateResults none)) (some qo)) (some qo) = none ∧
      (∀ k, k ≠ some qn → k ≠ some qo →
        alGet (alDel (alSet s.searches (some qn) ((YTActions.create (some qn)).updateResults none)) (some qo)) k = alGet s.searches k)) := by
  constructor
  · intro told tnew hto htn
    refine ⟨?_, ?_, ?_⟩
    · intro hex
      simp [YTFS.rename, hto, htn, hex]
    · intro hex hperm
      rcases hperm with h | h <;>
        simp [YTFS.rename, hto, htn, hex, h]
    · intro hex h1 h2 hexn
      simp [YTFS.rename, hto, htn, hex, h1, h2, hexn]
  · intro qo qn aold hto htn hqo hqn ha hn
    have hne : (some qo : Option PyStr) ≠ some qn := by
      intro h
      rw [← h, ha] at hn
      exact Option.noConfusion hn
    have hexo : s.existsT (some qo, none) = true := by
      simp [YTFS.existsT, falsy, ha]
    have hexn : s.existsT (some qn, none) = false := by
      simp [YTFS.existsT, falsy, hn, hqn]
    have hpto : PathType.get (some qo, none) = PathType.subdir := by
      simp [PathType.get, hqo]
    have hptn : PathType.get (some qn, none) = PathType.subdir := by
      simp [PathType.get, hqn]
    have hget1 : alGet (alSet s.searches (some qn)
        ((YTActions.create (some qn)).updateResults none)) (some qo) = some aold := by
      rw [alGet_alSet_ne _ _ _ _ hne, ha]
    refine ⟨?_, rfl, ?_, alGet_alDel_self _ _, ?_⟩
    · simp [YTFS.rename, hto, htn, hexo, hexn, hpto, hptn, hget1]
    · rw [alGet_alDel_ne _ _ _ (Ne.symm hne), alGet_alSet_self]
    · intro k hk1 hk2
      rw [alGet_alDel_ne _ _ _ hk2, alGet_alSet_ne _ _ _ _ hk1]

/-- C4 witness: renaming /cats (owning store 0) to the fresh /dogs leaves
only dogs in the search map and the heap unchanged. -/
theorem C4_rename_swaps_without_cleanup_witness :
    YTFS.rename ⟨[(some "cats".toList, ⟨some "cats".toList, [("vid".toList, 0)], []⟩)],
        [(0, ⟨true, ['x'], false, []⟩)], []⟩ "/cats".toList "/dogs".toList
      = Except.ok ⟨[(some "dogs".toList, ⟨some "dogs".toList, [], [none]⟩)],
          [(0, ⟨true, ['x'], false, []⟩)], []⟩ := by
  have h := (C4_rename_swaps_without_cleanup
    ⟨[(some "cats".toList, ⟨some "cats".toList, [("vid".toList, 0)], []⟩)],
      [(0, ⟨true, ['x'], false, []⟩)], []⟩ "/cats".toList "/dogs".toList).2
    "cats".toList "dogs".toList ⟨some "cats".toList, [("vid".toList, 0)], []⟩
    rfl rfl (by decide) (by decide) rfl rfl
  exact h.1

/-- C4 counterexample: rename /cats to /dogs succeeds, yet store 0 owned by
cats still has cleaned = false afterwards - its cleanup was never invoked;
and rename of a non-existing non-search-dir old path fails ENOENT where the
claim demands EPERM. -/
theorem C4_rename_cex :
    YTFS.rename ⟨[(some "cats".toList, ⟨some "cats".toList, [("vid".toList, 0)], []⟩)],
        [(0, ⟨true, ['x'], false, []⟩)], []⟩ "/cats".toList "/dogs".toList
      = Except.ok ⟨[(some "dogs".toList, ⟨some "dogs".toList, [], [none]⟩)],
          [(0, ⟨true, ['x'], false, []⟩)], []⟩ ∧
    (⟨true, ['x'], false, []⟩ : YTStor).cleaned = false ∧
    YTFS.rename ⟨[], [], []⟩ "/nope/x".toList "/dogs".toList
      = Except.error Errno.ENOENT :=
  ⟨rfl, rfl, rfl⟩

theorem splitSlashAux_head (cs : List Char) :
    ∀ acc, ∃ rest, splitSlashAux cs acc
      = (acc.reverse ++ cs.takeWhile (fun c => decide (c ≠ '/'))) :: rest := by
  induction cs with
  | nil =>
    intro acc
    exact ⟨[], by simp [splitSlashAux]⟩
  | cons c cs ih =>
    intro acc
    by_cases hc : c = '/'
    · subst hc
      refine ⟨splitSlashAux cs [], ?_⟩
      simp [splitSlashAux, List.takeWhile_cons]
    · rcases ih (c :: acc) with ⟨rest, hrest⟩
      refine ⟨rest, ?_⟩
      simp [splitSlashAux, hc, hrest, List.takeWhile_cons]

theorem splitSlashAux_append_slash (cs : List Char) :
    ∀ acc, splitSlashAux (cs ++ ['/']) acc = splitSlashAux cs acc ++ [[]] := by
  induction cs with
  | nil =>
    intro acc
    simp [splitSlashAux]
  | cons c cs ih =>
    intro acc
    by_cases hc : c = '/'
    · subst hc
      simp [splitSlashAux, ih]
    · simp [splitSlashAux, hc, ih]

theorem splitSlashAux_no_slash (cs : List Char) :
    ∀ acc, '/' ∉ cs → splitSlashAux cs acc = [acc.reverse ++ cs] := by
  induction cs with
  | nil =>
    intro acc _
    simp [splitSlashAux]
  | cons c cs ih =>
    intro acc h
    simp only [List.mem_cons, not_or] at h
    simp [splitSlashAux, Ne.symm h.1, ih _ h.2]

theorem pathToTuple_ok_inv (path : PyStr) (t : Option PyStr × Option PyStr)
    (h : pathToTuple path = Except.ok t) :
    path ≠ [] ∧
    ∃ rest, splitSlash path = [] :: rest ∧ rest ≠ [] ∧
      (if rest.getLast? = some [] then rest.dropLast else rest).length ≤ 2 ∧
      t = ((if rest.getLast? = some [] then rest.dropLast else rest)[0]?,
           (if rest.getLast? = some [] then rest.dropLast else rest)[1]?) := by
  by_cases h1 : path = [] ∨ path.count '/' > 2
  · rw [pathToTuple, if_pos h1] at h
    cases h
  rw [pathToTuple, if_neg h1] at h
  push_neg at h1
  rcases hsp : splitSlash path with _ | ⟨s0, rest⟩
  · rw [hsp] at h
    cases h
  rw [hsp] at h
  dsimp only at h
  by_cases h2 : s0 ≠ []
  · rw [if_pos h2] at h
    cases h
  rw [if_neg h2] at h
  push_neg at h2
  subst h2
  by_cases h3 : rest = []
  · rw [if_pos h3] at h
    cases h
  rw [if_neg h3] at h
  by_cases h4 : (if rest.getLast? = some [] then rest.dropLast else rest).length > 2
  · rw [if_pos h4] at h
    cases h
  rw [if_neg h4] at h
  refine ⟨h1.1, rest, rfl, h3, by omega, ?_⟩
  by_cases h5 : (falsy (if rest.getLast? = some [] then rest.dropLast else rest)[0]?
      && !falsy (if rest.getLast? = some [] then rest.dropLast else rest)[1]?) = true
  · rw [if_pos h5] at h
    cases h
  · rw [if_neg h5] at h
    cases h
    rfl

/-- C6 (amended): path classification accepts only paths that start with
'/' and carry at most two non-empty segments; a single trailing slash is
tolerated on a search-directory path /query (parsed identically to the form
without it), but not on every valid path: appending '/' to a two-segment
file path makes the path undecodable (more than two '/' characters), and
"//" is not parsed like "/".  The empty path, a path with more than two
segments, and a filename with no parent directory are invalid (EINVAL at
the FUSE boundary), and a name whose first character is an ASCII space
classifies as a control file. -/
theorem C6_path_model (path : PyStr) (t : Option PyStr × Option PyStr) (q f : PyStr) :
    (pathToTuple path = Except.ok t → path.head? = some '/') ∧
    (pathToTuple path = Except.ok t →
      ((splitSlash path).filter (fun x => decide (x ≠ []))).length ≤ 2) ∧
    (q ≠ [] → '/' ∉ q →
      pathToTuple ('/' :: q) = Except.ok (some q, none) ∧
      pathToTuple ('/' :: (q ++ ['/'])) = Except.ok (some q, none)) ∧
    pathToTuple [] = Except.error () ∧
    (f ≠ [] → '/' ∉ f → pathToTuple ('/' :: '/' :: f) = Except.error ()) ∧
    (q ≠ [] → f ≠ [] → f.head? = some ' ' →
      PathType.get (some q, some f) = PathType.ctrl) := by
  refine ⟨?_, ?_, ?_, rfl, ?_, ?_⟩
  · intro h
    obtain ⟨hne, rest, hsp, hrest, hlen, ht⟩ := pathToTuple_ok_inv path t h
    obtain ⟨rest2, hhead⟩ := splitSlashAux_head path []
    rw [show splitSlash path = splitSlashAux path [] from rfl] at hsp
    rw [hsp] at hhead
    have htw : path.takeWhile (fun c => decide (c ≠ '/')) = [] := by
      have h2 := (List.cons.injEq _ _ _ _).mp hhead
      simpa using h2.1.symm
    cases path with
    | nil => exact absurd rfl hne
    | cons c cs =>
      rw [List.takeWhile_cons] at htw
      by_cases hc : c = '/'
      · simp [hc]
      · simp [hc] at htw
  · intro h
    obtain ⟨hne, rest, hsp, hrest, hlen, ht⟩ := pathToTuple_ok_inv path t h
    rw [hsp]
    have hcons : ((([] : PyStr) :: rest).filter (fun x => decide (x ≠ []))).length
        = (rest.filter (fun x => decide (x ≠ []))).length := by
      simp
    rw [hcons]
    by_cases hlast : rest.getLast? = some []
    · rw [if_pos hlast] at hlen
      obtain ⟨l2, hl2⟩ := List.getLast?_eq_some_iff.mp hlast
      subst hl2
      rw [List.dropLast_concat] at hlen
      rw [List.filter_append]
      simp only [List.length_append]
      have hf2 : (([([] : PyStr)]).filter (fun x => decide (x ≠ []))).length = 0 := by
        simp
      rw [hf2]
      have := List.length_filter_le (fun x => decide (x ≠ [])) l2
      omega
    · rw [if_neg hlast] at hlen
      exact le_trans (List.length_filter_le _ _) hlen
  · intro hq hsl
    have hsq : splitSlashAux q [] = [q] := by
      simpa using splitSlashAux_no_slash q [] hsl
    have hsplit1 : splitSlash ('/' :: q) = [[], q] := by
      simp [splitSlash, splitSlashAux, hsq]
    have hsplit2 : splitSlash ('/' :: (q ++ ['/'])) = [[], q, []] := by
      simp [splitSlash, splitSlashAux, splitSlashAux_append_slash, hsq]
    have hc0 : q.count '/' = 0 := List.count_eq_zero.mpr hsl
    constructor
    · have hc1 : ('/' :: q).count '/' = 1 := by
        simp [List.count_cons, hc0]
      simp [pathToTuple, hsplit1, hc1, hq, falsy]
    · have hc2 : ('/' :: (q ++ ['/'])).count '/' = 2 := by
        simp [List.count_cons, List.count_append, hc0]
      simp [pathToTuple, hsplit2, hc2, hq, falsy]
  · intro hf hsl
    have hsf : splitSlashAux f [] = [f] := by
      simpa using splitSlashAux_no_slash f [] hsl
    have hsplit3 : splitSlash ('/' :: '/' :: f) = [[], [], f] := by
      simp [splitSlash, splitSlashAux, hsf]
    have hc3 : ('/' :: '/' :: f).count '/' = 2 := by
      simp [List.count_cons, List.count_eq_zero.mpr hsl]
    simp [pathToTuple, hsplit3, hc3, hf, falsy]
  · intro hq hf hh
    simp [PathType.get, hq, hf, hh]

/-- C6 witness: "/cats" and "/cats/" decode to the same search-directory
tuple, and the space-prefixed name " next" classifies as a control file. -/
theorem C6_path_model_witness :
    pathToTuple ('/' :: "cats".toList) = Except.ok (some "cats".toList, none) ∧
    pathToTuple ('/' :: ("cats".toList ++ ['/'])) = Except.ok (some "cats".toList, none) ∧
    PathType.get (some "cats".toList, some " next".toList) = PathType.ctrl := by
  have h := C6_path_model "/cats".toList (none, none) "cats".toList " next".toList
  have h1 := h.2.2.1 (by decide) (by decide)
  have h2 := h.2.2.2.2.2 (by decide) (by decide) (by decide)
  exact ⟨h1.1, h1.2, h2⟩

/-- C6 counterexample: "/a/b" is a valid path (a result file), but its
trailing-slash form "/a/b/" is rejected - the parser refuses any path with
more than two '/' characters - so a trailing slash is not tolerated on
every valid path; "//" is likewise not parsed like the root "/". -/
theorem C6_path_model_cex :
    pathToTuple "/a/b".toList = Except.ok (some "a".toList, some "b".toList) ∧
    pathToTuple "/a/b/".toList = Except.error () ∧
    pathToTuple "/".toList = Except.ok (none, none) ∧
    pathToTuple "//".toList = Except.ok (some [], none) ∧
    PathType.get (some [], (none : Option PyStr)) = PathType.invalid :=
  ⟨rfl, rfl, rfl, rfl, rfl⟩
